import Mathlib

/-!
Shallow embedding of `src/include/liblatlng.hpp` (namespace `liblatlng`).

The C++ code computes over IEEE floating-point numbers (`double` / `float`).
We model the numeric values exactly:

* The angle-normalization functions (`Degree::normalizeRelative`,
  `Degree::normalizeAbsolute`) only compare, add and subtract; we model the
  non-NaN values by `ℚ` and NaN by `none : Option ℚ`, so every definition on
  this layer is computable and decidable.  Rounding of the floating-point
  subtraction is not modelled: arithmetic is exact.

* The trigonometric formulas (`toRadian`, `fromRadian`,
  `BasicLatLng::distanceFrom`, `BasicLatLng::azimuthFrom`) need `π`, `sin`,
  `cos`, `tan`, `acos`, `atan2`; these are modelled over `ℝ`.  The C library
  primitive `std::acos` signals a domain error (NaN) outside `[-1, 1]`, which
  Mathlib's total `Real.arccos` does not, so `acos` is modelled as an
  `Option ℝ`-valued function (`none` = NaN); `std::atan2 y x` is modelled by
  `Complex.arg ⟨x, y⟩`, which has the same value and the same range `(-π, π]`.
-/

namespace liblatlng

namespace Degree

/-- The first loop of `Degree::normalizeRelative`:
`while (deg >= 180.0) { deg -= 360.0; }`. -/
def subLoopRel (deg : ℚ) : ℚ :=
  if 180 ≤ deg then subLoopRel (deg - 360) else deg
termination_by (⌈deg / 360⌉).toNat
decreasing_by
  have h1 : (deg - 360) / 360 = deg / 360 - 1 := by ring
  have h2 : ⌈(deg - 360) / 360⌉ = ⌈deg / 360⌉ - 1 := by
    rw [h1]; exact Int.ceil_sub_one _
  have h3 : (0 : ℤ) < ⌈deg / 360⌉ := Int.ceil_pos.mpr (by linarith)
  omega

/-- The second loop of `Degree::normalizeRelative`:
`while (deg < -180.0) { deg += 360.0; }`. -/
def addLoopRel (deg : ℚ) : ℚ :=
  if deg < -180 then addLoopRel (deg + 360) else deg
termination_by (⌈-deg / 360⌉).toNat
decreasing_by
  have h1 : -(deg + 360) / 360 = -deg / 360 - 1 := by ring
  have h2 : ⌈-(deg + 360) / 360⌉ = ⌈-deg / 360⌉ - 1 := by
    rw [h1]; exact Int.ceil_sub_one _
  have h3 : (0 : ℤ) < ⌈-deg / 360⌉ := Int.ceil_pos.mpr (by linarith)
  omega

/-- Embedding of `Degree::normalizeRelative` (lines 67–93): NaN passthrough, the
large-magnitude escape `deg > 1e9 || deg < -1e9` returning `0.0`, then the
two loops.  `none` models a NaN input. -/
def normalizeRelative : Option ℚ → Option ℚ
  | none => none
  | some deg =>
    if 1e9 < deg ∨ deg < -1e9 then some 0
    else some (addLoopRel (subLoopRel deg))

/-- The first loop of `Degree::normalizeAbsolute`:
`while (deg >= 360.0) { deg -= 360.0; }`. -/
def subLoopAbs (deg : ℚ) : ℚ :=
  if 360 ≤ deg then subLoopAbs (deg - 360) else deg
termination_by (⌈deg / 360⌉).toNat
decreasing_by
  have h1 : (deg - 360) / 360 = deg / 360 - 1 := by ring
  have h2 : ⌈(deg - 360) / 360⌉ = ⌈deg / 360⌉ - 1 := by
    rw [h1]; exact Int.ceil_sub_one _
  have h3 : (0 : ℤ) < ⌈deg / 360⌉ := Int.ceil_pos.mpr (by linarith)
  omega

/-- The second loop of `Degree::normalizeAbsolute`:
`while (deg < 0.0) { deg += 360.0; }`. -/
def addLoopAbs (deg : ℚ) : ℚ :=
  if deg < 0 then addLoopAbs (deg + 360) else deg
termination_by (⌈-deg / 360⌉).toNat
decreasing_by
  have h1 : -(deg + 360) / 360 = -deg / 360 - 1 := by ring
  have h2 : ⌈-(deg + 360) / 360⌉ = ⌈-deg / 360⌉ - 1 := by
    rw [h1]; exact Int.ceil_sub_one _
  have h3 : (0 : ℤ) < ⌈-deg / 360⌉ := Int.ceil_pos.mpr (by linarith)
  omega

/-- Embedding of `Degree::normalizeAbsolute` (lines 96–122): NaN passthrough, the
large-magnitude escape returning `0`, then the two loops. -/
def normalizeAbsolute : Option ℚ → Option ℚ
  | none => none
  | some deg =>
    if 1e9 < deg ∨ deg < -1e9 then some 0
    else some (addLoopAbs (subLoopAbs deg))

/-- Number of iterations executed by the first loop of
`Degree::normalizeRelative` on input `deg`. -/
def subIterRel (deg : ℚ) : ℕ :=
  if 180 ≤ deg then subIterRel (deg - 360) + 1 else 0
termination_by (⌈deg / 360⌉).toNat
decreasing_by
  have h1 : (deg - 360) / 360 = deg / 360 - 1 := by ring
  have h2 : ⌈(deg - 360) / 360⌉ = ⌈deg / 360⌉ - 1 := by
    rw [h1]; exact Int.ceil_sub_one _
  have h3 : (0 : ℤ) < ⌈deg / 360⌉ := Int.ceil_pos.mpr (by linarith)
  omega

/-- Number of iterations executed by the second loop of
`Degree::normalizeRelative` on input `deg`. -/
def addIterRel (deg : ℚ) : ℕ :=
  if deg < -180 then addIterRel (deg + 360) + 1 else 0
termination_by (⌈-deg / 360⌉).toNat
decreasing_by
  have h1 : -(deg + 360) / 360 = -deg / 360 - 1 := by ring
  have h2 : ⌈-(deg + 360) / 360⌉ = ⌈-deg / 360⌉ - 1 := by
    rw [h1]; exact Int.ceil_sub_one _
  have h3 : (0 : ℤ) < ⌈-deg / 360⌉ := Int.ceil_pos.mpr (by linarith)
  omega

/-- Number of iterations executed by the first loop of
`Degree::normalizeAbsolute` on input `deg`. -/
def subIterAbs (deg : ℚ) : ℕ :=
  if 360 ≤ deg then subIterAbs (deg - 360) + 1 else 0
termination_by (⌈deg / 360⌉).toNat
decreasing_by
  have h1 : (deg - 360) / 360 = deg / 360 - 1 := by ring
  have h2 : ⌈(deg - 360) / 360⌉ = ⌈deg / 360⌉ - 1 := by
    rw [h1]; exact Int.ceil_sub_one _
  have h3 : (0 : ℤ) < ⌈deg / 360⌉ := Int.ceil_pos.mpr (by linarith)
  omega

/-- Number of iterations executed by the second loop of
`Degree::normalizeAbsolute` on input `deg`. -/
def addIterAbs (deg : ℚ) : ℕ :=
  if deg < 0 then addIterAbs (deg + 360) + 1 else 0
termination_by (⌈-deg / 360⌉).toNat
decreasing_by
  have h1 : -(deg + 360) / 360 = -deg / 360 - 1 := by ring
  have h2 : ⌈-(deg + 360) / 360⌉ = ⌈-deg / 360⌉ - 1 := by
    rw [h1]; exact Int.ceil_sub_one _
  have h3 : (0 : ℤ) < ⌈-deg / 360⌉ := Int.ceil_pos.mpr (by linarith)
  omega

end Degree

namespace Constants

/-- Embedding of `Constants::pi<T>()`: `std::numbers::pi_v<T>` (C++20) or the literal
`3.14159265358979323846`; both denote the mathematical constant π in the
exact model. -/
noncomputable def pi : ℝ := Real.pi

end Constants

namespace Degree

/-- Embedding of `Degree::toRadian`: `deg * pi / 180.0`. -/
noncomputable def toRadian (deg : ℝ) : ℝ := deg * Constants.pi / 180

/-- Embedding of `Degree::fromRadian`: `rad * 180.0 / pi`. -/
noncomputable def fromRadian (rad : ℝ) : ℝ := rad * 180 / Constants.pi

/-- Real-valued copy of the first loop of `Degree::normalizeAbsolute`, for
the non-NaN real value that `azimuthFrom` feeds into it. -/
noncomputable def subLoopAbsR (deg : ℝ) : ℝ :=
  if 360 ≤ deg then subLoopAbsR (deg - 360) else deg
termination_by (⌈deg / 360⌉).toNat
decreasing_by
  have h1 : (deg - 360) / 360 = deg / 360 - 1 := by ring
  have h2 : ⌈(deg - 360) / 360⌉ = ⌈deg / 360⌉ - 1 := by
    rw [h1]; exact Int.ceil_sub_one _
  have h3 : (0 : ℤ) < ⌈deg / 360⌉ := Int.ceil_pos.mpr (by linarith)
  omega

/-- Real-valued copy of the second loop of `Degree::normalizeAbsolute`. -/
noncomputable def addLoopAbsR (deg : ℝ) : ℝ :=
  if deg < 0 then addLoopAbsR (deg + 360) else deg
termination_by (⌈-deg / 360⌉).toNat
decreasing_by
  have h1 : -(deg + 360) / 360 = -deg / 360 - 1 := by ring
  have h2 : ⌈-(deg + 360) / 360⌉ = ⌈-deg / 360⌉ - 1 := by
    rw [h1]; exact Int.ceil_sub_one _
  have h3 : (0 : ℤ) < ⌈-deg / 360⌉ := Int.ceil_pos.mpr (by linarith)
  omega

/-- Embedding of `Degree::normalizeAbsolute` on a real (never-NaN) argument, as invoked
from `BasicLatLng::azimuthFrom`; the NaN branch cannot fire in the exact
model, the large-magnitude escape and the two loops are kept verbatim. -/
noncomputable def normalizeAbsoluteR (deg : ℝ) : ℝ :=
  if 1e9 < deg ∨ deg < -1e9 then 0
  else addLoopAbsR (subLoopAbsR deg)

end Degree

/-- Model of the C library primitive `std::acos`: a domain error (outside
`[-1, 1]`) yields NaN, modelled as `none`. -/
noncomputable def acos (x : ℝ) : Option ℝ :=
  if x < -1 ∨ 1 < x then none else some (Real.arccos x)

/-- Model of the C library primitive `std::atan2(y, x)`: the angle of the
point `(x, y)` in `(-π, π]`, which is `Complex.arg ⟨x, y⟩`. -/
noncomputable def atan2 (y x : ℝ) : ℝ := Complex.arg ⟨x, y⟩

/-- Embedding of `liblatlng::BasicLatLng<T>`: latitude and longitude in degrees, for the
exact-real instantiation of the numeric parameter `T`. -/
structure BasicLatLng where
  lat : ℝ
  lng : ℝ

/-- Embedding of `BasicLatLng<T>::distanceFrom` (lines 148–167).  The result is
`Option ℝ`: `none` models the NaN that `std::acos` returns on a domain
error and that the multiplication by `kEarthRadius` propagates. -/
noncomputable def BasicLatLng.distanceFrom (self other : BasicLatLng) : Option ℝ :=
  let kEarthRadius : ℝ := 6378137.0
  let latRadian := Degree.toRadian self.lat
  let lngRadian := Degree.toRadian self.lng
  let otherLatRadian := Degree.toRadian other.lat
  let otherLngRadian := Degree.toRadian other.lng
  let lngRadianDiff := otherLngRadian - lngRadian
  (acos (Real.sin latRadian * Real.sin otherLatRadian +
      Real.cos latRadian * Real.cos otherLatRadian * Real.cos lngRadianDiff)).map
    (fun a => kEarthRadius * a)

/-- Embedding of `BasicLatLng<T>::azimuthFrom` (lines 169–184). -/
noncomputable def BasicLatLng.azimuthFrom (self other : BasicLatLng) : ℝ :=
  let latRadian := Degree.toRadian self.lat
  let lngRadian := Degree.toRadian self.lng
  let otherLatRadian := Degree.toRadian other.lat
  let otherLngRadian := Degree.toRadian other.lng
  let lngRadianDiff := otherLngRadian - lngRadian
  let y := Real.sin lngRadianDiff
  let x := Real.cos latRadian * Real.tan otherLatRadian -
    Real.sin latRadian * Real.cos lngRadianDiff
  Degree.normalizeAbsoluteR (Degree.fromRadian (atan2 y x) + 180)

end liblatlng

namespace liblatlng

namespace Degree

theorem subLoopRel_lt (deg : ℚ) : subLoopRel deg < 180 := by
  induction deg using subLoopRel.induct with
  | case1 d h ih => rw [subLoopRel]; simp only [if_pos h]; exact ih
  | case2 d h => rw [subLoopRel]; simp only [if_neg h]; exact not_le.mp h

theorem subLoopRel_ge (deg : ℚ) : -180 ≤ deg → -180 ≤ subLoopRel deg := by
  induction deg using subLoopRel.induct with
  | case1 d h ih =>
    intro _
    rw [subLoopRel]; simp only [if_pos h]
    exact ih (by linarith)
  | case2 d h =>
    intro hge
    rw [subLoopRel]; simp only [if_neg h]
    exact hge

theorem subLoopRel_congr (deg : ℚ) : ∃ k : ℤ, subLoopRel deg = deg - 360 * k := by
  induction deg using subLoopRel.induct with
  | case1 d h ih =>
    obtain ⟨k, hk⟩ := ih
    refine ⟨k + 1, ?_⟩
    rw [subLoopRel]; simp only [if_pos h]
    rw [hk]; push_cast; ring
  | case2 d h =>
    refine ⟨0, ?_⟩
    rw [subLoopRel]; simp only [if_neg h]
    push_cast; ring

theorem addLoopRel_ge (deg : ℚ) : -180 ≤ addLoopRel deg := by
  induction deg using addLoopRel.induct with
  | case1 d h ih => rw [addLoopRel]; simp only [if_pos h]; exact ih
  | case2 d h => rw [addLoopRel]; simp only [if_neg h]; exact not_lt.mp h

theorem addLoopRel_lt (deg : ℚ) : deg < 180 → addLoopRel deg < 180 := by
  induction deg using addLoopRel.induct with
  | case1 d h ih =>
    intro _
    rw [addLoopRel]; simp only [if_pos h]
    exact ih (by linarith)
  | case2 d h =>
    intro hlt
    rw [addLoopRel]; simp only [if_neg h]
    exact hlt

theorem addLoopRel_congr (deg : ℚ) : ∃ k : ℤ, addLoopRel deg = deg + 360 * k := by
  induction deg using addLoopRel.induct with
  | case1 d h ih =>
    obtain ⟨k, hk⟩ := ih
    refine ⟨k + 1, ?_⟩
    rw [addLoopRel]; simp only [if_pos h]
    rw [hk]; push_cast; ring
  | case2 d h =>
    refine ⟨0, ?_⟩
    rw [addLoopRel]; simp only [if_neg h]
    push_cast; ring

theorem subLoopAbs_lt (deg : ℚ) : subLoopAbs deg < 360 := by
  induction deg using subLoopAbs.induct with
  | case1 d h ih => rw [subLoopAbs]; simp only [if_pos h]; exact ih
  | case2 d h => rw [subLoopAbs]; simp only [if_neg h]; exact not_le.mp h

theorem subLoopAbs_ge (deg : ℚ) : 0 ≤ deg → 0 ≤ subLoopAbs deg := by
  induction deg using subLoopAbs.induct with
  | case1 d h ih =>
    intro _
    rw [subLoopAbs]; simp only [if_pos h]
    exact ih (by linarith)
  | case2 d h =>
    intro hge
    rw [subLoopAbs]; simp only [if_neg h]
    exact hge

theorem subLoopAbs_congr (deg : ℚ) : ∃ k : ℤ, subLoopAbs deg = deg - 360 * k := by
  induction deg using subLoopAbs.induct with
  | case1 d h ih =>
    obtain ⟨k, hk⟩ := ih
    refine ⟨k + 1, ?_⟩
    rw [subLoopAbs]; simp only [if_pos h]
    rw [hk]; push_cast; ring
  | case2 d h =>
    refine ⟨0, ?_⟩
    rw [subLoopAbs]; simp only [if_neg h]
    push_cast; ring

theorem addLoopAbs_ge (deg : ℚ) : 0 ≤ addLoopAbs deg := by
  induction deg using addLoopAbs.induct with
  | case1 d h ih => rw [addLoopAbs]; simp only [if_pos h]; exact ih
  | case2 d h => rw [addLoopAbs]; simp only [if_neg h]; exact not_lt.mp h

theorem addLoopAbs_lt (deg : ℚ) : deg < 360 → addLoopAbs deg < 360 := by
  induction deg using addLoopAbs.induct with
  | case1 d h ih =>
    intro _
    rw [addLoopAbs]; simp only [if_pos h]
    exact ih (by linarith)
  | case2 d h =>
    intro hlt
    rw [addLoopAbs]; simp only [if_neg h]
    exact hlt

theorem addLoopAbs_congr (deg : ℚ) : ∃ k : ℤ, addLoopAbs deg = deg + 360 * k := by
  induction deg using addLoopAbs.induct with
  | case1 d h ih =>
    obtain ⟨k, hk⟩ := ih
    refine ⟨k + 1, ?_⟩
    rw [addLoopAbs]; simp only [if_pos h]
    rw [hk]; push_cast; ring
  | case2 d h =>
    refine ⟨0, ?_⟩
    rw [addLoopAbs]; simp only [if_neg h]
    push_cast; ring

theorem subIterRel_le (k : ℕ) :
    ∀ d : ℚ, d < 180 + 360 * k → subIterRel d ≤ k := by
  induction k with
  | zero =>
    intro d hd
    have h : ¬ 180 ≤ d := by push_cast at hd; linarith
    rw [subIterRel, if_neg h]
  | succ n ih =>
    intro d hd
    by_cases h : 180 ≤ d
    · rw [subIterRel, if_pos h]
      have := ih (d - 360) (by push_cast at hd ⊢; linarith)
      omega
    · rw [subIterRel, if_neg h]
      omega

theorem subIterRel_lower (k : ℕ) :
    ∀ d : ℚ, 180 + 360 * k ≤ d → k + 1 ≤ subIterRel d := by
  induction k with
  | zero =>
    intro d hd
    have h : 180 ≤ d := by push_cast at hd; linarith
    rw [subIterRel, if_pos h]
    omega
  | succ n ih =>
    intro d hd
    have hnn : (0 : ℚ) ≤ 360 * ((n : ℚ) + 1) := by positivity
    have h : 180 ≤ d := by push_cast at hd; linarith
    rw [subIterRel, if_pos h]
    have := ih (d - 360) (by push_cast at hd ⊢; linarith)
    omega

theorem addIterRel_le (k : ℕ) :
    ∀ d : ℚ, -(180 + 360 * k) ≤ d → addIterRel d ≤ k := by
  induction k with
  | zero =>
    intro d hd
    have h : ¬ d < -180 := by push_cast at hd; linarith
    rw [addIterRel, if_neg h]
  | succ n ih =>
    intro d hd
    by_cases h : d < -180
    · rw [addIterRel, if_pos h]
      have := ih (d + 360) (by push_cast at hd ⊢; linarith)
      omega
    · rw [addIterRel, if_neg h]
      omega

theorem subIterAbs_le (k : ℕ) :
    ∀ d : ℚ, d < 360 + 360 * k → subIterAbs d ≤ k := by
  induction k with
  | zero =>
    intro d hd
    have h : ¬ 360 ≤ d := by push_cast at hd; linarith
    rw [subIterAbs, if_neg h]
  | succ n ih =>
    intro d hd
    by_cases h : 360 ≤ d
    · rw [subIterAbs, if_pos h]
      have := ih (d - 360) (by push_cast at hd ⊢; linarith)
      omega
    · rw [subIterAbs, if_neg h]
      omega

theorem addIterAbs_le (k : ℕ) :
    ∀ d : ℚ, -(360 * k) ≤ d → addIterAbs d ≤ k := by
  induction k with
  | zero =>
    intro d hd
    have h : ¬ d < 0 := by push_cast at hd; linarith
    rw [addIterAbs, if_neg h]
  | succ n ih =>
    intro d hd
    by_cases h : d < 0
    · rw [addIterAbs, if_pos h]
      have := ih (d + 360) (by push_cast at hd ⊢; linarith)
      omega
    · rw [addIterAbs, if_neg h]
      omega

end Degree

end liblatlng

open liblatlng liblatlng.Degree

/-- C1: For every non-NaN input `d` with `|d| ≤ 1e9` (not taken by the
large-magnitude escape), `normalizeRelative(d)` returns a value in the
half-open interval `[-180, 180)` that is congruent to `d` modulo 360. -/
theorem C1_normalizeRelative_range_congr (d : ℚ) (hd : |d| ≤ 1e9) :
    ∃ r : ℚ, normalizeRelative (some d) = some r ∧
      -180 ≤ r ∧ r < 180 ∧ ∃ k : ℤ, d - r = 360 * k := by
  have habs := abs_le.mp hd
  have hesc : ¬((1e9 : ℚ) < d ∨ d < -1e9) :=
    not_or.mpr ⟨not_lt.mpr habs.2, not_lt.mpr habs.1⟩
  refine ⟨addLoopRel (subLoopRel d), ?_, addLoopRel_ge _,
    addLoopRel_lt _ (subLoopRel_lt d), ?_⟩
  · simp [normalizeRelative, hesc]
  · obtain ⟨k1, hk1⟩ := subLoopRel_congr d
    obtain ⟨k2, hk2⟩ := addLoopRel_congr (subLoopRel d)
    refine ⟨k1 - k2, ?_⟩
    rw [hk2, hk1]
    push_cast
    ring

/-- Witness for C1 at the concrete input `d = 540`. -/
theorem C1_witness :
    |(540 : ℚ)| ≤ 1e9 ∧
      ∃ r : ℚ, normalizeRelative (some 540) = some r ∧
        -180 ≤ r ∧ r < 180 ∧ ∃ k : ℤ, 540 - r = 360 * k :=
  ⟨by norm_num, C1_normalizeRelative_range_congr 540 (by norm_num)⟩

/-- C2: For every non-NaN input `d` with `|d| ≤ 1e9` (not taken by the
large-magnitude escape), `normalizeAbsolute(d)` returns a value in the
half-open interval `[0, 360)` that is congruent to `d` modulo 360. -/
theorem C2_normalizeAbsolute_range_congr (d : ℚ) (hd : |d| ≤ 1e9) :
    ∃ r : ℚ, normalizeAbsolute (some d) = some r ∧
      0 ≤ r ∧ r < 360 ∧ ∃ k : ℤ, d - r = 360 * k := by
  have habs := abs_le.mp hd
  have hesc : ¬((1e9 : ℚ) < d ∨ d < -1e9) :=
    not_or.mpr ⟨not_lt.mpr habs.2, not_lt.mpr habs.1⟩
  refine ⟨addLoopAbs (subLoopAbs d), ?_, addLoopAbs_ge _,
    addLoopAbs_lt _ (subLoopAbs_lt d), ?_⟩
  · simp [normalizeAbsolute, hesc]
  · obtain ⟨k1, hk1⟩ := subLoopAbs_congr d
    obtain ⟨k2, hk2⟩ := addLoopAbs_congr (subLoopAbs d)
    refine ⟨k1 - k2, ?_⟩
    rw [hk2, hk1]
    push_cast
    ring

/-- Witness for C2 at the concrete input `d = -90`. -/
theorem C2_witness :
    |(-90 : ℚ)| ≤ 1e9 ∧
      ∃ r : ℚ, normalizeAbsolute (some (-90)) = some r ∧
        0 ≤ r ∧ r < 360 ∧ ∃ k : ℤ, -90 - r = 360 * k :=
  ⟨by norm_num, C2_normalizeAbsolute_range_congr (-90) (by norm_num)⟩

/-- C3: If the input is NaN (modelled as `none`), both `normalizeRelative`
and `normalizeAbsolute` return it unchanged. -/
theorem C3_nan_passthrough :
    normalizeRelative none = none ∧ normalizeAbsolute none = none :=
  ⟨rfl, rfl⟩

/-- C4: For every input `d` with `|d| > 1e9`, both `normalizeRelative(d)`
and `normalizeAbsolute(d)` return `0` immediately (in particular at `2e9`
and `-2e9`); inputs with `|d| ≤ 1e9` do not take this escape and are
normalized by the loops. -/
theorem C4_large_magnitude_escape :
    (∀ d : ℚ, 1e9 < |d| →
      normalizeRelative (some d) = some 0 ∧
      normalizeAbsolute (some d) = some 0) ∧
    normalizeRelative (some 2e9) = some 0 ∧
    normalizeAbsolute (some (-2e9)) = some 0 ∧
    (∀ d : ℚ, |d| ≤ 1e9 →
      normalizeRelative (some d) = some (addLoopRel (subLoopRel d)) ∧
      normalizeAbsolute (some d) = some (addLoopAbs (subLoopAbs d))) := by
  refine ⟨?_, ?_, ?_, ?_⟩
  · intro d hd
    have h : (1e9 : ℚ) < d ∨ d < -1e9 := by
      rcases lt_abs.mp hd with h | h
      · exact Or.inl h
      · exact Or.inr (by linarith)
    constructor
    · simp only [normalizeRelative]
      rw [if_pos h]
    · simp only [normalizeAbsolute]
      rw [if_pos h]
  · simp only [normalizeRelative]
    norm_num
  · simp only [normalizeAbsolute]
    norm_num
  · intro d hd
    have habs := abs_le.mp hd
    have hesc : ¬((1e9 : ℚ) < d ∨ d < -1e9) :=
      not_or.mpr ⟨not_lt.mpr habs.2, not_lt.mpr habs.1⟩
    constructor
    · simp only [normalizeRelative]
      rw [if_neg hesc]
    · simp only [normalizeAbsolute]
      rw [if_neg hesc]

/-- Witness for C4 at the concrete inputs `d = 3e9` (escaped) and
`d = 720` (not escaped). -/
theorem C4_witness :
    ((1e9 : ℚ) < |(3e9 : ℚ)| ∧ normalizeRelative (some 3e9) = some 0) ∧
    (|(720 : ℚ)| ≤ 1e9 ∧
      normalizeRelative (some 720) = some (addLoopRel (subLoopRel 720))) :=
  ⟨⟨by norm_num, (C4_large_magnitude_escape.1 3e9 (by norm_num)).1⟩,
   ⟨by norm_num,
    (C4_large_magnitude_escape.2.2.2 720 (by norm_num)).1⟩⟩

/-- C9 counterexample: the input `1e9` is non-NaN and not taken by the
large-magnitude escape (`|1e9| ≤ 1e9`), yet the first loop of
`normalizeRelative` executes more than two million subtract-360 iterations
— far beyond "a few hundred". -/
theorem C9_counterexample :
    |(1e9 : ℚ)| ≤ 1e9 ∧ 2000000 < subIterRel 1e9 := by
  constructor
  · norm_num
  · have h := subIterRel_lower 2777776 1e9 (by push_cast; norm_num)
    omega

/-- C9 (amended): for every non-NaN input `d` with `|d| ≤ 1e9` the
normalization loops of `normalizeRelative` and `normalizeAbsolute`
terminate, executing at most 2,777,778 add/subtract-360 iterations in
total — a worst case on the order of millions (≈ |d|/360), not a few
hundred. -/
theorem C9_loop_iteration_bound (d : ℚ) (hd : |d| ≤ 1e9) :
    subIterRel d + addIterRel (subLoopRel d) ≤ 2777778 ∧
    subIterAbs d + addIterAbs (subLoopAbs d) ≤ 2777778 := by
  have habs := abs_le.mp hd
  have hub : d ≤ 1000000000 := by
    have := habs.2; norm_num at this; exact this
  have hlb : -1000000000 ≤ d := by
    have := habs.1; norm_num at this; exact this
  constructor
  · by_cases h : 180 ≤ d
    · have h1 : subIterRel d ≤ 2777778 :=
        subIterRel_le 2777778 d (by push_cast; linarith)
      have h2 : -180 ≤ subLoopRel d := subLoopRel_ge d (by linarith)
      have h3 : addIterRel (subLoopRel d) ≤ 0 :=
        addIterRel_le 0 _ (by push_cast; linarith)
      omega
    · have h1 : subIterRel d = 0 := by rw [subIterRel, if_neg h]
      have h2 : subLoopRel d = d := by rw [subLoopRel, if_neg h]
      have h3 : addIterRel d ≤ 2777778 :=
        addIterRel_le 2777778 d (by push_cast; linarith)
      rw [h1, h2]
      omega
  · by_cases h : 360 ≤ d
    · have h1 : subIterAbs d ≤ 2777778 :=
        subIterAbs_le 2777778 d (by push_cast; linarith)
      have h2 : 0 ≤ subLoopAbs d := subLoopAbs_ge d (by linarith)
      have h3 : addIterAbs (subLoopAbs d) ≤ 0 :=
        addIterAbs_le 0 _ (by push_cast; linarith)
      omega
    · have h1 : subIterAbs d = 0 := by rw [subIterAbs, if_neg h]
      have h2 : subLoopAbs d = d := by rw [subLoopAbs, if_neg h]
      have h3 : addIterAbs d ≤ 2777778 :=
        addIterAbs_le 2777778 d (by push_cast; linarith)
      rw [h1, h2]
      omega

/-- Witness for the amended C9 at the concrete input `d = 720`. -/
theorem C9_witness :
    |(720 : ℚ)| ≤ 1e9 ∧
      (subIterRel 720 + addIterRel (subLoopRel 720) ≤ 2777778 ∧
       subIterAbs 720 + addIterAbs (subLoopAbs 720) ≤ 2777778) :=
  ⟨by norm_num, C9_loop_iteration_bound 720 (by norm_num)⟩

/-- Unfolding lemma for `BasicLatLng.distanceFrom`. -/
theorem distanceFrom_eq (self other : BasicLatLng) :
    BasicLatLng.distanceFrom self other =
      (acos (Real.sin (toRadian self.lat) * Real.sin (toRadian other.lat) +
          Real.cos (toRadian self.lat) * Real.cos (toRadian other.lat) *
          Real.cos (toRadian other.lng - toRadian self.lng))).map
        (fun a => (6378137.0 : ℝ) * a) := rfl

/-- Unfolding lemma for `BasicLatLng.azimuthFrom`. -/
theorem azimuthFrom_eq (self other : BasicLatLng) :
    BasicLatLng.azimuthFrom self other =
      normalizeAbsoluteR (fromRadian
        (atan2 (Real.sin (toRadian other.lng - toRadian self.lng))
          (Real.cos (toRadian self.lat) * Real.tan (toRadian other.lat) -
            Real.sin (toRadian self.lat) *
              Real.cos (toRadian other.lng - toRadian self.lng))) + 180) := rfl

/-- C5: `toRadian(deg)` computes `deg * π / 180`, `fromRadian(rad)` computes
`rad * 180 / π`, and for every `d` the round trip
`fromRadian(toRadian(d))` equals `d` exactly in exact arithmetic. -/
theorem C5_radian_conversion_roundtrip :
    (∀ d : ℝ, toRadian d = d * Real.pi / 180) ∧
    (∀ r : ℝ, fromRadian r = r * 180 / Real.pi) ∧
    ∀ d : ℝ, fromRadian (toRadian d) = d := by
  refine ⟨fun d => rfl, fun r => rfl, fun d => ?_⟩
  simp only [toRadian, fromRadian, Constants.pi]
  field_simp

/-- C6: `distanceFrom` equals
`R * acos(sin(lat1)·sin(lat2) + cos(lat1)·cos(lat2)·cos(Δlng))` with
`R = 6378137.0`, all angles converted to radians via `toRadian` and
`Δlng = other.lng - self.lng` in radians; the `acos` argument is not
clamped, so an argument outside `[-1, 1]` yields NaN (`none`). -/
theorem C6_distance_formula :
    (∀ self other : BasicLatLng,
      BasicLatLng.distanceFrom self other =
        (acos (Real.sin (toRadian self.lat) * Real.sin (toRadian other.lat) +
            Real.cos (toRadian self.lat) * Real.cos (toRadian other.lat) *
            Real.cos (toRadian other.lng - toRadian self.lng))).map
          (fun a => (6378137.0 : ℝ) * a)) ∧
    (∀ x : ℝ, 1 < x → acos x = none) ∧
    (∀ x : ℝ, x < -1 → acos x = none) := by
  refine ⟨fun self other => distanceFrom_eq self other,
    fun x hx => ?_, fun x hx => ?_⟩
  · rw [acos, if_pos (Or.inr hx)]
  · rw [acos, if_pos (Or.inl hx)]

/-- Witness for C6 at the out-of-domain `acos` arguments `2` and `-2`. -/
theorem C6_witness :
    ((1 : ℝ) < 2 ∧ acos 2 = none) ∧ ((-2 : ℝ) < -1 ∧ acos (-2) = none) :=
  ⟨⟨by norm_num, C6_distance_formula.2.1 2 (by norm_num)⟩,
   ⟨by norm_num, C6_distance_formula.2.2 (-2) (by norm_num)⟩⟩

/-- C7: the distance is symmetric — `distanceFrom` computed from `A` to `B`
equals `distanceFrom` computed from `B` to `A`, exactly, since the `acos`
argument is symmetric under swapping the two points. -/
theorem C7_distance_symmetric (p q : BasicLatLng) :
    BasicLatLng.distanceFrom p q = BasicLatLng.distanceFrom q p := by
  rw [distanceFrom_eq, distanceFrom_eq]
  have harg : Real.sin (toRadian p.lat) * Real.sin (toRadian q.lat) +
      Real.cos (toRadian p.lat) * Real.cos (toRadian q.lat) *
      Real.cos (toRadian q.lng - toRadian p.lng) =
      Real.sin (toRadian q.lat) * Real.sin (toRadian p.lat) +
      Real.cos (toRadian q.lat) * Real.cos (toRadian p.lat) *
      Real.cos (toRadian p.lng - toRadian q.lng) := by
    rw [show toRadian p.lng - toRadian q.lng =
      -(toRadian q.lng - toRadian p.lng) from by ring, Real.cos_neg]
    ring
  rw [harg]

/-- C8: `azimuthFrom` computes `y = sin(Δlng)`,
`x = cos(lat1)·tan(lat2) - sin(lat1)·cos(Δlng)`, takes `atan2(y, x)`,
converts to degrees, adds 180, and normalizes via `normalizeAbsolute`;
the bearing from `(0,0)` to `(0,90)` — the azimuth of the arrow drawn from
`(0,0)`, i.e. `(0,90).azimuthFrom((0,0))` — is exactly 90° (due east). -/
theorem C8_azimuth_formula :
    (∀ self other : BasicLatLng,
      BasicLatLng.azimuthFrom self other =
        normalizeAbsoluteR (fromRadian
          (atan2 (Real.sin (toRadian other.lng - toRadian self.lng))
            (Real.cos (toRadian self.lat) * Real.tan (toRadian other.lat) -
              Real.sin (toRadian self.lat) *
                Real.cos (toRadian other.lng - toRadian self.lng))) + 180)) ∧
    BasicLatLng.azimuthFrom (BasicLatLng.mk 0 90) (BasicLatLng.mk 0 0) = 90 := by
  refine ⟨fun self other => azimuthFrom_eq self other, ?_⟩
  rw [azimuthFrom_eq]
  show normalizeAbsoluteR (fromRadian
    (atan2 (Real.sin (toRadian 0 - toRadian 90))
      (Real.cos (toRadian 0) * Real.tan (toRadian 0) -
        Real.sin (toRadian 0) * Real.cos (toRadian 0 - toRadian 90))) + 180) = 90
  have ht0 : toRadian (0 : ℝ) = 0 := by
    simp [toRadian]
  have ht90 : toRadian (90 : ℝ) = Real.pi / 2 := by
    simp only [toRadian, Constants.pi]
    ring
  rw [ht0, ht90, zero_sub, Real.sin_neg, Real.sin_pi_div_two, Real.cos_zero,
    Real.tan_zero, Real.sin_zero]
  norm_num
  have hatan : atan2 (-1 : ℝ) 0 = -(Real.pi / 2) := by
    have h : (⟨0, -1⟩ : ℂ) = -Complex.I := by
      apply Complex.ext <;> simp
    rw [atan2, h, Complex.arg_neg_I]
  rw [hatan]
  have hfrom : fromRadian (-(Real.pi / 2)) = -90 := by
    simp only [fromRadian, Constants.pi]
    rw [div_eq_iff Real.pi_ne_zero]
    ring
  rw [hfrom]
  norm_num
  rw [normalizeAbsoluteR, if_neg (by norm_num)]
  rw [subLoopAbsR, if_neg (by norm_num)]
  rw [addLoopAbsR, if_neg (by norm_num)]

/-- C10 (implicit): whenever the `acos` argument lies in `[-1, 1]`, the
distance is a defined (non-NaN) value, non-negative and bounded by
`π * 6378137` meters — half the circumference of the model sphere. -/
theorem C10_distance_nonneg_bounded (p q : BasicLatLng)
    (h1 : -1 ≤ Real.sin (toRadian p.lat) * Real.sin (toRadian q.lat) +
        Real.cos (toRadian p.lat) * Real.cos (toRadian q.lat) *
        Real.cos (toRadian q.lng - toRadian p.lng))
    (h2 : Real.sin (toRadian p.lat) * Real.sin (toRadian q.lat) +
        Real.cos (toRadian p.lat) * Real.cos (toRadian q.lat) *
        Real.cos (toRadian q.lng - toRadian p.lng) ≤ 1) :
    ∃ dist : ℝ, BasicLatLng.distanceFrom p q = some dist ∧
      0 ≤ dist ∧ dist ≤ Real.pi * 6378137 := by
  rw [distanceFrom_eq]
  rw [acos, if_neg (not_or.mpr ⟨not_lt.mpr h1, not_lt.mpr h2⟩)]
  refine ⟨(6378137.0 : ℝ) * Real.arccos
    (Real.sin (toRadian p.lat) * Real.sin (toRadian q.lat) +
      Real.cos (toRadian p.lat) * Real.cos (toRadian q.lat) *
      Real.cos (toRadian q.lng - toRadian p.lng)), rfl, ?_, ?_⟩
  · exact mul_nonneg (by norm_num) (Real.arccos_nonneg _)
  · have h := Real.arccos_le_pi
      (Real.sin (toRadian p.lat) * Real.sin (toRadian q.lat) +
        Real.cos (toRadian p.lat) * Real.cos (toRadian q.lat) *
        Real.cos (toRadian q.lng - toRadian p.lng))
    linarith

/-- Witness for C10 at the pair of identical points `(0, 0)`, where the
`acos` argument is exactly 1. -/
theorem C10_witness :
    (-1 ≤ Real.sin (toRadian (BasicLatLng.mk 0 0).lat) *
        Real.sin (toRadian (BasicLatLng.mk 0 0).lat) +
        Real.cos (toRadian (BasicLatLng.mk 0 0).lat) *
        Real.cos (toRadian (BasicLatLng.mk 0 0).lat) *
        Real.cos (toRadian (BasicLatLng.mk 0 0).lng -
          toRadian (BasicLatLng.mk 0 0).lng)) ∧
    ∃ dist : ℝ,
      BasicLatLng.distanceFrom (BasicLatLng.mk 0 0) (BasicLatLng.mk 0 0) =
        some dist ∧ 0 ≤ dist ∧ dist ≤ Real.pi * 6378137 := by
  have hA : Real.sin (toRadian (BasicLatLng.mk 0 0).lat) *
      Real.sin (toRadian (BasicLatLng.mk 0 0).lat) +
      Real.cos (toRadian (BasicLatLng.mk 0 0).lat) *
      Real.cos (toRadian (BasicLatLng.mk 0 0).lat) *
      Real.cos (toRadian (BasicLatLng.mk 0 0).lng -
        toRadian (BasicLatLng.mk 0 0).lng) = 1 := by
    simp [toRadian]
  refine ⟨by rw [hA]; norm_num, ?_⟩
  exact C10_distance_nonneg_bounded (BasicLatLng.mk 0 0) (BasicLatLng.mk 0 0)
    (by rw [hA]; norm_num) (by rw [hA])
